import Mathlib

/-!
Shallow embedding of the `myhex` crate (src/lib.rs) and verification of its
specification.

Strings are modelled as their UTF-8 byte sequences (`List Nat`, each entry a
byte value), mirroring `s.as_bytes()` in the source.  The panicking paths of
the Rust code (`assert!` and `panic!`) are modelled as `Except` errors carrying
the panic message from the source.  All byte arithmetic in the source stays
below 256 (nibble values are at most 15, combined bytes at most 255), so plain
`Nat` arithmetic without wrap-around is a faithful model of the `u8`
operations.
-/

namespace Myhex

/-- Error values standing for the three panic sites of `src/lib.rs`, each
carrying the panic message from the source. -/
inductive HexError where
  | oddLength (msg : String)
  | lengthMismatch (msg : String)
  | invalidCharacter (msg : String)
deriving DecidableEq, Repr

deriving instance DecidableEq for Except

/-- Embedding of `ascii_char_to_num` (src/lib.rs lines 70-77): maps one ASCII
byte to the nibble it represents; any other byte panics with
"Invalid character".  Byte literals: `b'0' = 48`, `b'9' = 57`, `b'a' = 97`,
`b'f' = 102`, `b'A' = 65`, `b'F' = 70`. -/
def ascii_char_to_num (ascii_char : Nat) : Except HexError Nat :=
  if 48 ≤ ascii_char ∧ ascii_char ≤ 57 then .ok (ascii_char - 48)
  else if 97 ≤ ascii_char ∧ ascii_char ≤ 102 then .ok (ascii_char - 97 + 10)
  else if 65 ≤ ascii_char ∧ ascii_char ≤ 70 then .ok (ascii_char - 65 + 10)
  else .error (.invalidCharacter "Invalid character")

/-- Embedding of the `while idx < N` loop of `hex` (src/lib.rs lines 56-64).
The second argument is the current index `idx`, the third the remaining
iteration count `N - idx`; each iteration reads bytes `idx * 2` and
`idx * 2 + 1`, decodes both nibbles and stores `(msb <<< 4) + lsb` at output
position `idx`. -/
def hexLoop (bytes : List Nat) : Nat → Nat → Except HexError (List Nat)
  | _, 0 => .ok []
  | idx, k + 1 =>
    match ascii_char_to_num (bytes.getD (idx * 2) 0) with
    | .error e => .error e
    | .ok msb =>
      match ascii_char_to_num (bytes.getD (idx * 2 + 1) 0) with
      | .error e => .error e
      | .ok lsb =>
        match hexLoop bytes (idx + 1) k with
        | .error e => .error e
        | .ok rest => .ok (((msb <<< 4) + lsb) :: rest)

/-- Embedding of `hex::<N>` (src/lib.rs lines 50-65): the two `assert!`
length checks in source order, then the decoding loop starting at index 0. -/
def hex (N : Nat) (s : List Nat) : Except HexError (List Nat) :=
  if s.length % 2 = 0 then
    if s.length = N * 2 then
      hexLoop s 0 N
    else
      .error (.lengthMismatch "Invalid length (`N * 2 == s.len()` not satisfied).")
  else
    .error (.oddLength "Length needs to be even")

/-- Modelled from the spec: the dynamically-sized decode variant
(`decode(s: string) -> sequence<byte>`, spec section 4.3) is absent from
src/lib.rs, which only exposes the fixed-length `hex::<N>` and the `hex!`
macro.  Per the spec, it checks that the length is even (else
`OddLengthError`), sets the output length to `length(s) / 2` and runs the same
pair-decode loop as the fixed-length variant. -/
def decode (s : List Nat) : Except HexError (List Nat) :=
  if s.length % 2 = 0 then
    hexLoop s 0 (s.length / 2)
  else
    .error (.oddLength "Length needs to be even")

/-- The valid-digit test: whether `ascii_char_to_num` succeeds on this byte. -/
def validDigit (c : Nat) : Bool :=
  (ascii_char_to_num c).isOk

/-- The nibble value of a byte, 0 for invalid bytes. -/
def digitVal (c : Nat) : Nat :=
  ((ascii_char_to_num c).toOption).getD 0

/-- The byte encoded by the pair of hex digits at positions `i * 2` and
`i * 2 + 1`. -/
def pairVal (s : List Nat) (i : Nat) : Nat :=
  (digitVal (s.getD (i * 2) 0) <<< 4) + digitVal (s.getD (i * 2 + 1) 0)

/-- Canonical lowercase hex digit for a nibble (spec section 8, round-trip
property; encoding is out of scope for the crate, so this is the spec's
canonical encoder). -/
def encodeNibble (n : Nat) : Nat :=
  if n < 10 then n + 48 else n + 87

/-- Canonical lowercase hex encoding of a byte sequence, most significant
nibble first. -/
def encodeHex : List Nat → List Nat
  | [] => []
  | b :: rest => encodeNibble (b / 16) :: encodeNibble (b % 16) :: encodeHex rest

/-- ASCII lowercasing of one byte. -/
def lowerByte (c : Nat) : Nat :=
  if 65 ≤ c ∧ c ≤ 90 then c + 32 else c

/-- ASCII uppercasing of one byte. -/
def upperByte (c : Nat) : Nat :=
  if 97 ≤ c ∧ c ≤ 122 then c - 32 else c

lemma isOk_ok (a : Nat) : (Except.ok a : Except HexError Nat).isOk = true := rfl

lemma isOk_error (e : HexError) :
    (Except.error e : Except HexError Nat).isOk = false := rfl

lemma validDigit_iff (c : Nat) :
    validDigit c = true ↔
      (48 ≤ c ∧ c ≤ 57) ∨ (97 ≤ c ∧ c ≤ 102) ∨ (65 ≤ c ∧ c ≤ 70) := by
  unfold validDigit ascii_char_to_num
  split_ifs with h1 h2 h3 <;> simp [Except.isOk] <;> tauto

lemma ascii_ok_of_valid {c : Nat} (h : validDigit c = true) :
    ascii_char_to_num c = .ok (digitVal c) := by
  unfold validDigit at h
  unfold digitVal
  cases hc : ascii_char_to_num c with
  | ok d => rfl
  | error e => rw [hc] at h; exact Bool.noConfusion h

lemma ascii_error_shape {c : Nat} {e : HexError}
    (h : ascii_char_to_num c = .error e) :
    e = .invalidCharacter "Invalid character" := by
  unfold ascii_char_to_num at h
  split_ifs at h <;> injection h with h <;> exact h.symm

lemma ascii_error_of_not_valid {c : Nat} (h : validDigit c = false) :
    ascii_char_to_num c = .error (.invalidCharacter "Invalid character") := by
  unfold validDigit at h
  cases hc : ascii_char_to_num c with
  | ok d => rw [hc] at h; exact Bool.noConfusion h
  | error e => rw [ascii_error_shape hc]

lemma digitVal_le_15 (c : Nat) : digitVal c ≤ 15 := by
  unfold digitVal ascii_char_to_num
  split_ifs with h1 h2 h3
  · show c - 48 ≤ 15
    omega
  · show c - 97 + 10 ≤ 15
    omega
  · show c - 65 + 10 ≤ 15
    omega
  · show (0 : Nat) ≤ 15
    omega

lemma digitVal_eq_of_ok {c d : Nat} (h : ascii_char_to_num c = .ok d) :
    digitVal c = d := by
  unfold digitVal
  rw [h]
  rfl

lemma valid_of_ok {c d : Nat} (h : ascii_char_to_num c = .ok d) :
    validDigit c = true := by
  unfold validDigit
  rw [h]
  rfl

lemma pairVal_le_255 (s : List Nat) (i : Nat) : pairVal s i ≤ 255 := by
  unfold pairVal
  have h1 := digitVal_le_15 (s.getD (i * 2) 0)
  have h2 := digitVal_le_15 (s.getD (i * 2 + 1) 0)
  rw [Nat.shiftLeft_eq]
  omega

lemma nibble_add_eq_or : ∀ a < 16, ∀ b < 16, (a <<< 4) + b = (a <<< 4) ||| b := by
  decide

lemma getD_eq_getElem (l : List Nat) (i : Nat) (h : i < l.length) :
    l.getD i 0 = l[i] := by
  simp [List.getD_eq_getElem?_getD, List.getElem?_eq_getElem h]

lemma getD_mem (l : List Nat) (i : Nat) (h : i < l.length) : l.getD i 0 ∈ l := by
  rw [getD_eq_getElem l i h]
  exact List.getElem_mem h

lemma getD_map (f : Nat → Nat) (l : List Nat) (i : Nat) (h : i < l.length) :
    (l.map f).getD i 0 = f (l.getD i 0) := by
  have h2 : i < (l.map f).length := by simpa using h
  rw [getD_eq_getElem _ i h2, getD_eq_getElem l i h]
  simp

lemma range_map_getD (l : List Nat) :
    (List.range l.length).map (fun j => l.getD j 0) = l := by
  apply List.ext_getElem
  · simp
  · intro i h1 h2
    have hr : i < (List.range l.length).length := by simpa using h2
    simp only [List.getElem_map, List.getElem_range]
    exact getD_eq_getElem l i h2

lemma hexLoop_ok_of_valid (s : List Nat) :
    ∀ k idx,
      (∀ j, j < k → validDigit (s.getD ((idx + j) * 2) 0) = true ∧
        validDigit (s.getD ((idx + j) * 2 + 1) 0) = true) →
      hexLoop s idx k = .ok ((List.range k).map fun j => pairVal s (idx + j)) := by
  intro k
  induction k with
  | zero => intro idx h; rfl
  | succ k ih =>
    intro idx h
    have hv1 : validDigit (s.getD (idx * 2) 0) = true := by
      have hs := (h 0 k.succ_pos).1
      rwa [Nat.add_zero] at hs
    have hv2 : validDigit (s.getD (idx * 2 + 1) 0) = true := by
      have hs := (h 0 k.succ_pos).2
      rwa [Nat.add_zero] at hs
    have ihh := ih (idx + 1) (fun j hj => by
      have hs := h (j + 1) (Nat.succ_lt_succ hj)
      rwa [show idx + (j + 1) = idx + 1 + j by omega] at hs)
    have hlist : (List.range (k + 1)).map (fun j => pairVal s (idx + j)) =
        pairVal s idx :: ((List.range k).map fun j => pairVal s (idx + 1 + j)) := by
      rw [List.range_succ_eq_map, List.map_cons, List.map_map]
      congr 1
      apply List.map_congr_left
      intro a _
      simp only [Function.comp_apply]
      congr 1
      omega
    rw [hexLoop, ascii_ok_of_valid hv1, ascii_ok_of_valid hv2, ihh, hlist]
    rfl

lemma hexLoop_ok_inv (s : List Nat) :
    ∀ k idx out, hexLoop s idx k = .ok out →
      out.length = k ∧
      ∀ j, j < k → validDigit (s.getD ((idx + j) * 2) 0) = true ∧
        validDigit (s.getD ((idx + j) * 2 + 1) 0) = true := by
  intro k
  induction k with
  | zero =>
    intro idx out h
    have h2 : Except.ok ([] : List Nat) = Except.ok out := h
    injection h2 with h2
    constructor
    · rw [← h2]; rfl
    · intro j hj; omega
  | succ k ih =>
    intro idx out h
    rw [hexLoop] at h
    cases h1 : ascii_char_to_num (s.getD (idx * 2) 0) with
    | error e =>
      rw [h1] at h
      exact absurd (show Except.error e = Except.ok out from h) (by intro hc; injection hc)
    | ok msb =>
      rw [h1] at h
      cases h2 : ascii_char_to_num (s.getD (idx * 2 + 1) 0) with
      | error e =>
        rw [h2] at h
        exact absurd (show Except.error e = Except.ok out from h) (by intro hc; injection hc)
      | ok lsb =>
        rw [h2] at h
        cases h3 : hexLoop s (idx + 1) k with
        | error e =>
          rw [h3] at h
          exact absurd (show Except.error e = Except.ok out from h) (by intro hc; injection hc)
        | ok rest =>
          rw [h3] at h
          have h4 : Except.ok ((((msb <<< 4) + lsb) :: rest) : List Nat) = Except.ok out := h
          injection h4 with h4
          obtain ⟨hlen, hval⟩ := ih (idx + 1) rest h3
          constructor
          · rw [← h4]; simp [hlen]
          · intro j hj
            cases j with
            | zero =>
              rw [Nat.add_zero]
              exact ⟨valid_of_ok h1, valid_of_ok h2⟩
            | succ j =>
              have hs := hval j (by omega)
              rwa [show idx + 1 + j = idx + (j + 1) by omega] at hs


lemma hexLoop_error_shape (s : List Nat) :
    ∀ k idx e, hexLoop s idx k = .error e →
      e = .invalidCharacter "Invalid character" := by
  intro k
  induction k with
  | zero =>
    intro idx e h
    exact absurd (show Except.ok ([] : List Nat) = Except.error e from h)
      (by intro hc; injection hc)
  | succ k ih =>
    intro idx e h
    rw [hexLoop] at h
    cases h1 : ascii_char_to_num (s.getD (idx * 2) 0) with
    | error e1 =>
      rw [h1] at h
      have h2 : (Except.error e1 : Except HexError (List Nat)) = Except.error e := h
      injection h2 with h2
      rw [← h2]
      exact ascii_error_shape h1
    | ok msb =>
      rw [h1] at h
      cases h2 : ascii_char_to_num (s.getD (idx * 2 + 1) 0) with
      | error e2 =>
        rw [h2] at h
        have h3 : (Except.error e2 : Except HexError (List Nat)) = Except.error e := h
        injection h3 with h3
        rw [← h3]
        exact ascii_error_shape h2
      | ok lsb =>
        rw [h2] at h
        cases h3 : hexLoop s (idx + 1) k with
        | error e3 =>
          rw [h3] at h
          have h4 : (Except.error e3 : Except HexError (List Nat)) = Except.error e := h
          injection h4 with h4
          rw [← h4]
          exact ih (idx + 1) e3 h3
        | ok rest =>
          rw [h3] at h
          exact absurd
            (show Except.ok ((((msb <<< 4) + lsb) :: rest) : List Nat) = Except.error e from h)
            (by intro hc; injection hc)

lemma valid_positions {s : List Nat} (hv : ∀ b ∈ s, validDigit b = true)
    {N : Nat} (hlen : s.length = N * 2) :
    ∀ j, j < N → validDigit (s.getD ((0 + j) * 2) 0) = true ∧
      validDigit (s.getD ((0 + j) * 2 + 1) 0) = true := by
  intro j hj
  constructor
  · exact hv _ (getD_mem s ((0 + j) * 2) (by omega))
  · exact hv _ (getD_mem s ((0 + j) * 2 + 1) (by omega))

lemma hex_ok_char {N : Nat} {s : List Nat} (hlen : s.length = N * 2)
    (hv : ∀ b ∈ s, validDigit b = true) :
    hex N s = .ok ((List.range N).map fun j => pairVal s j) := by
  unfold hex
  rw [hlen, if_pos (by omega : (N * 2) % 2 = 0), if_pos rfl]
  have h := hexLoop_ok_of_valid s N 0 (valid_positions hv hlen)
  simp only [Nat.zero_add] at h
  exact h

lemma hex_ok_inv {N : Nat} {s out : List Nat} (h : hex N s = .ok out) :
    s.length = N * 2 ∧ out.length = N ∧
      (∀ j, j < N → validDigit (s.getD (j * 2) 0) = true ∧
        validDigit (s.getD (j * 2 + 1) 0) = true) ∧
      out = (List.range N).map fun j => pairVal s j := by
  unfold hex at h
  split_ifs at h with h1 h2
  obtain ⟨hlen, hval⟩ := hexLoop_ok_inv s N 0 out h
  have hval2 : ∀ j, j < N → validDigit (s.getD (j * 2) 0) = true ∧
      validDigit (s.getD (j * 2 + 1) 0) = true := by
    intro j hj
    have hs := hval j hj
    rwa [Nat.zero_add] at hs
  refine ⟨h2, hlen, hval2, ?_⟩
  have hchar := hexLoop_ok_of_valid s N 0 (fun j hj => by
    have hs := hval2 j hj
    rwa [Nat.zero_add])
  rw [h] at hchar
  injection hchar with hchar
  rw [hchar]
  apply List.map_congr_left
  intro a _
  rw [Nat.zero_add]

lemma hex_invalid_of_bad_byte {N : Nat} {s : List Nat} (hlen : s.length = N * 2)
    {b : Nat} (hb : b ∈ s) (hbad : validDigit b = false) :
    hex N s = .error (.invalidCharacter "Invalid character") := by
  unfold hex
  rw [hlen, if_pos (by omega : (N * 2) % 2 = 0), if_pos rfl]
  cases hres : hexLoop s 0 N with
  | ok out =>
    exfalso
    obtain ⟨-, hval⟩ := hexLoop_ok_inv s N 0 out hres
    obtain ⟨i, hi, hib⟩ := List.mem_iff_getElem.mp hb
    have hgd : s.getD i 0 = b := by rw [getD_eq_getElem s i hi, hib]
    have hj : i / 2 < N := by omega
    have hs := hval (i / 2) hj
    rw [Nat.zero_add] at hs
    rcases Nat.mod_two_eq_zero_or_one i with h0 | h1
    · have hi2 : i = (i / 2) * 2 := by omega
      rw [hi2] at hgd
      rw [hgd] at hs
      rw [hs.1] at hbad
      exact Bool.noConfusion hbad
    · have hi2 : i = (i / 2) * 2 + 1 := by omega
      rw [hi2] at hgd
      rw [hgd] at hs
      rw [hs.2] at hbad
      exact Bool.noConfusion hbad
  | error e =>
    rw [hexLoop_error_shape s N 0 e hres]

lemma hex_oddLength2 {N : Nat} {s : List Nat} (h : s.length % 2 ≠ 0) :
    hex N s = .error (.oddLength "Length needs to be even") := by
  unfold hex
  rw [if_neg h]

lemma hex_lengthMismatch2 {N : Nat} {s : List Nat} (h1 : s.length % 2 = 0)
    (h2 : s.length ≠ N * 2) :
    hex N s = .error (.lengthMismatch "Invalid length (`N * 2 == s.len()` not satisfied).") := by
  unfold hex
  rw [if_pos h1, if_neg h2]

lemma getD_range_map (f : Nat → Nat) (N i : Nat) (h : i < N) :
    ((List.range N).map f).getD i 0 = f i := by
  have hx : i < ((List.range N).map f).length := by simp [h]
  rw [getD_eq_getElem _ i hx]
  simp

lemma ascii_lowerByte {c : Nat} (h : validDigit c = true) :
    ascii_char_to_num (lowerByte c) = ascii_char_to_num c := by
  have hb := (validDigit_iff c).mp h
  have h1 : 48 ≤ c := by rcases hb with h2 | h2 | h2 <;> omega
  have h2 : c ≤ 102 := by rcases hb with h3 | h3 | h3 <;> omega
  interval_cases c <;> rfl

lemma ascii_upperByte {c : Nat} (h : validDigit c = true) :
    ascii_char_to_num (upperByte c) = ascii_char_to_num c := by
  have hb := (validDigit_iff c).mp h
  have h1 : 48 ≤ c := by rcases hb with h2 | h2 | h2 <;> omega
  have h2 : c ≤ 102 := by rcases hb with h3 | h3 | h3 <;> omega
  interval_cases c <;> rfl

lemma hex_map_congr {f : Nat → Nat}
    (hf : ∀ c, validDigit c = true → ascii_char_to_num (f c) = ascii_char_to_num c)
    {N : Nat} {s : List Nat} (hlen : s.length = N * 2)
    (hv : ∀ b ∈ s, validDigit b = true) :
    hex N (s.map f) = hex N s := by
  have hvf : ∀ b ∈ s.map f, validDigit b = true := by
    intro b hb
    rw [List.mem_map] at hb
    obtain ⟨a, ha, rfl⟩ := hb
    unfold validDigit
    rw [hf a (hv a ha)]
    exact hv a ha
  have hlf : (s.map f).length = N * 2 := by simpa using hlen
  rw [hex_ok_char hlf hvf, hex_ok_char hlen hv]
  congr 1
  apply List.map_congr_left
  intro j hj
  have hjN : j < N := by simpa using hj
  unfold pairVal
  have p1 : j * 2 < s.length := by omega
  have p2 : j * 2 + 1 < s.length := by omega
  rw [getD_map f s (j * 2) p1, getD_map f s (j * 2 + 1) p2]
  have d1 : digitVal (f (s.getD (j * 2) 0)) = digitVal (s.getD (j * 2) 0) := by
    unfold digitVal
    rw [hf _ (hv _ (getD_mem s _ p1))]
  have d2 : digitVal (f (s.getD (j * 2 + 1) 0)) = digitVal (s.getD (j * 2 + 1) 0) := by
    unfold digitVal
    rw [hf _ (hv _ (getD_mem s _ p2))]
  rw [d1, d2]

lemma encodeNibble_ascii : ∀ n, n < 16 → ascii_char_to_num (encodeNibble n) = .ok n := by
  decide

lemma validDigit_encodeNibble : ∀ n, n < 16 → validDigit (encodeNibble n) = true := by
  decide

lemma encodeHex_length : ∀ bs : List Nat, (encodeHex bs).length = 2 * bs.length := by
  intro bs
  induction bs with
  | nil => rfl
  | cons b rest ih =>
    rw [encodeHex]
    simp only [List.length_cons, ih]
    omega

lemma encodeHex_valid : ∀ bs : List Nat, (∀ b ∈ bs, b < 256) →
    ∀ c ∈ encodeHex bs, validDigit c = true := by
  intro bs
  induction bs with
  | nil =>
    intro _ c hc
    rw [encodeHex] at hc
    exact absurd hc (List.not_mem_nil c)
  | cons b rest ih =>
    intro hb c hc
    rw [encodeHex] at hc
    rcases List.mem_cons.mp hc with h1 | hc2
    · rw [h1]
      exact validDigit_encodeNibble _ (by have := hb b (by simp); omega)
    · rcases List.mem_cons.mp hc2 with h2 | h3
      · rw [h2]
        exact validDigit_encodeNibble _ (Nat.mod_lt b (by omega))
      · exact ih (fun x hx => hb x (by simp [hx])) c h3

lemma encodeHex_getD_even : ∀ (bs : List Nat) (i : Nat), i < bs.length →
    (encodeHex bs).getD (i * 2) 0 = encodeNibble (bs.getD i 0 / 16) := by
  intro bs
  induction bs with
  | nil => intro i h; exact absurd h (by simp)
  | cons b rest ih =>
    intro i h
    cases i with
    | zero => rfl
    | succ i =>
      have hr : i < rest.length := by simpa using h
      have he : (i + 1) * 2 = i * 2 + 1 + 1 := by omega
      rw [he, encodeHex, List.getD_cons_succ, List.getD_cons_succ, List.getD_cons_succ]
      exact ih i hr

lemma encodeHex_getD_odd : ∀ (bs : List Nat) (i : Nat), i < bs.length →
    (encodeHex bs).getD (i * 2 + 1) 0 = encodeNibble (bs.getD i 0 % 16) := by
  intro bs
  induction bs with
  | nil => intro i h; exact absurd h (by simp)
  | cons b rest ih =>
    intro i h
    cases i with
    | zero => rfl
    | succ i =>
      have hr : i < rest.length := by simpa using h
      have he : (i + 1) * 2 + 1 = i * 2 + 1 + 1 + 1 := by omega
      rw [he, encodeHex, List.getD_cons_succ, List.getD_cons_succ, List.getD_cons_succ]
      exact ih i hr

lemma hex_encodeHex (bs : List Nat) (hb : ∀ b ∈ bs, b < 256) :
    hex bs.length (encodeHex bs) = .ok bs := by
  have hlen : (encodeHex bs).length = bs.length * 2 := by
    rw [encodeHex_length]
    omega
  rw [hex_ok_char hlen (encodeHex_valid bs hb)]
  congr 1
  apply List.ext_getElem (by simp)
  intro i h1 h2
  have hiN : i < bs.length := by simpa using h2
  have hmap : i < (List.map (fun j => pairVal (encodeHex bs) j) (List.range bs.length)).length := by
    simp [hiN]
  rw [List.getElem_map, List.getElem_range]
  unfold pairVal
  rw [encodeHex_getD_even bs i hiN, encodeHex_getD_odd bs i hiN]
  have hbi : bs.getD i 0 < 256 := hb _ (getD_mem bs i hiN)
  rw [digitVal_eq_of_ok (encodeNibble_ascii _ (by omega)),
    digitVal_eq_of_ok (encodeNibble_ascii _ (Nat.mod_lt _ (by omega)))]
  rw [Nat.shiftLeft_eq]
  rw [getD_eq_getElem bs i hiN]
  omega

lemma decode_ok_length {s out : List Nat} (h : decode s = .ok out) :
    out.length = s.length / 2 := by
  unfold decode at h
  split_ifs at h
  exact (hexLoop_ok_inv s (s.length / 2) 0 out h).1

lemma decode_ok_of_valid {s : List Nat} (h1 : s.length % 2 = 0)
    (hv : ∀ b ∈ s, validDigit b = true) :
    decode s = .ok ((List.range (s.length / 2)).map fun j => pairVal s (0 + j)) := by
  unfold decode
  rw [if_pos h1]
  exact hexLoop_ok_of_valid s (s.length / 2) 0 (fun j hj =>
    ⟨hv _ (getD_mem s _ (by omega)), hv _ (getD_mem s _ (by omega))⟩)

/-- C1: for every hex string s (modelled as its UTF-8 bytes, all of them valid
hex digits) with length 2 * N, the fixed-length decode hex N s succeeds and
returns the array of length N whose entry at each idx < N equals
(decode_digit s[2*idx] <<< 4) ||| decode_digit s[2*idx+1]; in particular
decoding "010aff" (bytes [48, 49, 48, 97, 102, 102]) yields [1, 10, 255]. -/
theorem C1_hex_fixed_decode :
    (∀ (N : Nat) (s : List Nat), s.length = 2 * N →
      (∀ b ∈ s, validDigit b = true) →
      ∃ out, hex N s = .ok out ∧ out.length = N ∧
        ∀ idx d1 d2, idx < N →
          ascii_char_to_num (s.getD (2 * idx) 0) = .ok d1 →
          ascii_char_to_num (s.getD (2 * idx + 1) 0) = .ok d2 →
          out.getD idx 0 = (d1 <<< 4) ||| d2) ∧
    hex 3 [48, 49, 48, 97, 102, 102] = .ok [1, 10, 255] := by
  constructor
  · intro N s hlen hv
    have hlen2 : s.length = N * 2 := by omega
    refine ⟨(List.range N).map fun j => pairVal s j, hex_ok_char hlen2 hv, by simp, ?_⟩
    intro idx d1 d2 hidx h1 h2
    rw [getD_range_map _ N idx hidx]
    have hd1 : d1 ≤ 15 := by
      have := digitVal_le_15 (s.getD (2 * idx) 0)
      rw [digitVal_eq_of_ok h1] at this
      exact this
    have hd2 : d2 ≤ 15 := by
      have := digitVal_le_15 (s.getD (2 * idx + 1) 0)
      rw [digitVal_eq_of_ok h2] at this
      exact this
    unfold pairVal
    rw [show idx * 2 = 2 * idx by omega, digitVal_eq_of_ok h1, digitVal_eq_of_ok h2]
    exact nibble_add_eq_or d1 (by omega) d2 (by omega)
  · rfl

/-- Witness for C1 at the concrete input "0f" (bytes [48, 102]) with N = 1. -/
theorem C1_hex_fixed_decode_witness :
    ∃ out, hex 1 [48, 102] = .ok out ∧ out.length = 1 ∧
      ∀ idx d1 d2, idx < 1 →
        ascii_char_to_num ([48, 102].getD (2 * idx) 0) = .ok d1 →
        ascii_char_to_num ([48, 102].getD (2 * idx + 1) 0) = .ok d2 →
        out.getD idx 0 = (d1 <<< 4) ||| d2 :=
  C1_hex_fixed_decode.1 1 [48, 102] rfl (by decide)

/-- C2: the digit decoder maps bytes 48..57 (the digits 0-9) to 0..9, bytes
97..102 (a-f) to 10..15, bytes 65..70 (A-F) to 10..15, and fails with an
InvalidCharacter error on every other byte value. -/
theorem C2_digit_decoder :
    (∀ c, 48 ≤ c → c ≤ 57 → ascii_char_to_num c = .ok (c - 48) ∧ c - 48 ≤ 9) ∧
    (∀ c, 97 ≤ c → c ≤ 102 → ascii_char_to_num c = .ok (c - 97 + 10) ∧
      10 ≤ c - 97 + 10 ∧ c - 97 + 10 ≤ 15) ∧
    (∀ c, 65 ≤ c → c ≤ 70 → ascii_char_to_num c = .ok (c - 65 + 10) ∧
      10 ≤ c - 65 + 10 ∧ c - 65 + 10 ≤ 15) ∧
    (∀ c, c < 256 → ¬(48 ≤ c ∧ c ≤ 57) → ¬(97 ≤ c ∧ c ≤ 102) → ¬(65 ≤ c ∧ c ≤ 70) →
      ascii_char_to_num c = .error (.invalidCharacter "Invalid character")) := by
  refine ⟨?_, ?_, ?_, ?_⟩
  · intro c h1 h2
    refine ⟨?_, by omega⟩
    unfold ascii_char_to_num
    rw [if_pos ⟨h1, h2⟩]
  · intro c h1 h2
    refine ⟨?_, by omega, by omega⟩
    unfold ascii_char_to_num
    rw [if_neg (by omega), if_pos ⟨h1, h2⟩]
  · intro c h1 h2
    refine ⟨?_, by omega, by omega⟩
    unfold ascii_char_to_num
    rw [if_neg (by omega), if_neg (by omega), if_pos ⟨h1, h2⟩]
  · intro c _ h1 h2 h3
    unfold ascii_char_to_num
    rw [if_neg h1, if_neg h2, if_neg h3]

/-- Witness for C2 at the concrete bytes 57 (the digit 9), 97 (a), 70 (F) and
88 (X, invalid). -/
theorem C2_digit_decoder_witness :
    (ascii_char_to_num 57 = .ok (57 - 48) ∧ 57 - 48 ≤ 9) ∧
    (ascii_char_to_num 97 = .ok (97 - 97 + 10) ∧
      10 ≤ 97 - 97 + 10 ∧ 97 - 97 + 10 ≤ 15) ∧
    (ascii_char_to_num 70 = .ok (70 - 65 + 10) ∧
      10 ≤ 70 - 65 + 10 ∧ 70 - 65 + 10 ≤ 15) ∧
    ascii_char_to_num 88 = .error (.invalidCharacter "Invalid character") :=
  ⟨C2_digit_decoder.1 57 (by decide) (by decide),
   C2_digit_decoder.2.1 97 (by decide) (by decide),
   C2_digit_decoder.2.2.1 70 (by decide) (by decide),
   C2_digit_decoder.2.2.2 88 (by decide) (by decide) (by decide) (by decide)⟩

/-- C3 counterexample: the claim "hex N s succeeds iff length s = 2 * N, and
for any N with length s ≠ 2 * N it fails with LengthMismatchError" is false:
"XX" (bytes [88, 88]) has length 2 * 1 yet hex 1 fails (invalid characters),
and "111" (bytes [49, 49, 49]) has length ≠ 2 * 1 yet fails with the
odd-length error, not the length-mismatch error. -/
theorem C3_counterexample :
    ([88, 88] : List Nat).length = 2 * 1 ∧ (hex 1 [88, 88]).isOk = false ∧
    ([49, 49, 49] : List Nat).length ≠ 2 * 1 ∧
    hex 1 [49, 49, 49] = .error (.oddLength "Length needs to be even") ∧
    hex 1 [49, 49, 49] ≠
      .error (.lengthMismatch "Invalid length (`N * 2 == s.len()` not satisfied).") := by
  refine ⟨rfl, rfl, by decide, rfl, by decide⟩

/-- C3 amended: for strings made only of valid hex digits, hex N s succeeds
iff length s = 2 * N; for even-length strings with length ≠ 2 * N the failure
is the length-mismatch error (odd lengths fail with the odd-length error
instead). -/
theorem C3_amended :
    (∀ (N : Nat) (s : List Nat), (∀ b ∈ s, validDigit b = true) →
      ((∃ out, hex N s = .ok out) ↔ s.length = 2 * N)) ∧
    (∀ (N : Nat) (s : List Nat), s.length % 2 = 0 → s.length ≠ 2 * N →
      hex N s = .error (.lengthMismatch "Invalid length (`N * 2 == s.len()` not satisfied).")) := by
  constructor
  · intro N s hv
    constructor
    · rintro ⟨out, hout⟩
      have := (hex_ok_inv hout).1
      omega
    · intro hlen
      exact ⟨_, hex_ok_char (by omega) hv⟩
  · intro N s h1 h2
    exact hex_lengthMismatch2 h1 (by omega)

/-- Witness for C3 amended at "0f" (bytes [48, 102], N = 1) and "0101"
(bytes [48, 49, 48, 49], N = 1). -/
theorem C3_amended_witness :
    ((∃ out, hex 1 [48, 102] = .ok out) ↔ ([48, 102] : List Nat).length = 2 * 1) ∧
    hex 1 [48, 49, 48, 49] =
      .error (.lengthMismatch "Invalid length (`N * 2 == s.len()` not satisfied).") :=
  ⟨C3_amended.1 1 [48, 102] (by decide),
   C3_amended.2 1 [48, 49, 48, 49] (by decide) (by decide)⟩

/-- C4: the dynamically-sized decode (modelled from the spec, since src only
has the fixed-length hex and the hex! macro): its output length is
length s / 2, it needs no caller-supplied size, its only length precondition
is evenness (valid-digit even-length inputs succeed), and odd lengths fail
with the odd-length error. -/
theorem C4_decode_dynamic :
    (∀ s out : List Nat, decode s = .ok out → out.length = s.length / 2) ∧
    (∀ s : List Nat, s.length % 2 ≠ 0 →
      decode s = .error (.oddLength "Length needs to be even")) ∧
    (∀ s : List Nat, s.length % 2 = 0 → (∀ b ∈ s, validDigit b = true) →
      ∃ out, decode s = .ok out ∧ out.length = s.length / 2) := by
  refine ⟨?_, ?_, ?_⟩
  · intro s out h
    exact decode_ok_length h
  · intro s h
    unfold decode
    rw [if_neg h]
  · intro s h1 hv
    refine ⟨_, decode_ok_of_valid h1 hv, by simp⟩

/-- Witness for C4 at "0f" (bytes [48, 102]) and "111" (bytes [49, 49, 49]). -/
theorem C4_decode_dynamic_witness :
    ([15] : List Nat).length = ([48, 102] : List Nat).length / 2 ∧
    decode [49, 49, 49] = .error (.oddLength "Length needs to be even") ∧
    ∃ out, decode [48, 102] = .ok out ∧
      out.length = ([48, 102] : List Nat).length / 2 :=
  ⟨C4_decode_dynamic.1 [48, 102] [15] rfl,
   C4_decode_dynamic.2.1 [49, 49, 49] (by decide),
   C4_decode_dynamic.2.2 [48, 102] (by decide) (by decide)⟩

/-- C5: the even-length check runs before the length-vs-N check, so every
odd-length input fails with the odd-length error for every N regardless of
content; hex 1 "111" fails with the odd-length error and hex 3 "1111" fails
with the length-mismatch error. -/
theorem C5_check_order :
    (∀ (N : Nat) (s : List Nat), s.length % 2 = 1 →
      hex N s = .error (.oddLength "Length needs to be even")) ∧
    hex 1 [49, 49, 49] = .error (.oddLength "Length needs to be even") ∧
    hex 3 [49, 49, 49, 49] =
      .error (.lengthMismatch "Invalid length (`N * 2 == s.len()` not satisfied).") := by
  refine ⟨?_, rfl, rfl⟩
  intro N s h
  exact hex_oddLength2 (by omega)

/-- Witness for C5 at the odd-length input [88] (an invalid character) with
the mismatched size N = 2: the failure is still the odd-length error. -/
theorem C5_check_order_witness :
    hex 2 [88] = .error (.oddLength "Length needs to be even") :=
  C5_check_order.1 2 [88] rfl

/-- C6: decoding is case-insensitive: for every valid hex string of length
2 * N, lowercasing or uppercasing the input (or replacing it by any
mixed-case variant with the same lowercase image) leaves the result
unchanged, and the result has length len s / 2; decoding "ABCD"
([65, 66, 67, 68]) and "AbcD" ([65, 98, 99, 68]) both yield
[0xAB, 0xCD] = [171, 205]. -/
theorem C6_case_insensitive :
    (∀ (N : Nat) (s : List Nat), s.length = 2 * N →
      (∀ b ∈ s, validDigit b = true) →
      hex N (s.map lowerByte) = hex N s ∧
      hex N (s.map upperByte) = hex N s ∧
      (∀ v : List Nat, (∀ b ∈ v, validDigit b = true) →
        v.map lowerByte = s.map lowerByte → hex N v = hex N s) ∧
      ∀ out, hex N s = .ok out → out.length = s.length / 2) ∧
    hex 2 [65, 66, 67, 68] = .ok [171, 205] ∧
    hex 2 [65, 98, 99, 68] = .ok [171, 205] := by
  constructor
  · intro N s hlen hv
    have hlen2 : s.length = N * 2 := by omega
    refine ⟨hex_map_congr (fun c hc => ascii_lowerByte hc) hlen2 hv,
            hex_map_congr (fun c hc => ascii_upperByte hc) hlen2 hv, ?_, ?_⟩
    · intro v hvv hmap
      have hvs : v.length = s.length := by
        have hl := congrArg List.length hmap
        simpa using hl
      have hvlen : v.length = N * 2 := by omega
      calc hex N v = hex N (v.map lowerByte) :=
            (hex_map_congr (fun c hc => ascii_lowerByte hc) hvlen hvv).symm
        _ = hex N (s.map lowerByte) := by rw [hmap]
        _ = hex N s := hex_map_congr (fun c hc => ascii_lowerByte hc) hlen2 hv
    · intro out hout
      have := (hex_ok_inv hout).2.1
      omega
  · exact ⟨rfl, rfl⟩

/-- Witness for C6 at "ABCD" (bytes [65, 66, 67, 68], N = 2). -/
theorem C6_case_insensitive_witness :
    hex 2 ([65, 66, 67, 68].map lowerByte) = hex 2 [65, 66, 67, 68] :=
  (C6_case_insensitive.1 2 [65, 66, 67, 68] rfl (by decide)).1

/-- C7: the empty string decodes successfully to the empty byte sequence,
both for the fixed-length variant with N = 0 and for the dynamic variant. -/
theorem C7_empty_string : hex 0 [] = .ok [] ∧ decode [] = .ok [] :=
  ⟨rfl, rfl⟩

/-- C8: round-trip: re-encoding any decode result with the canonical
lowercase encoder and decoding again gives the same bytes; equivalently the
decoder is a left inverse of the canonical encoder on byte sequences. -/
theorem C8_roundtrip :
    (∀ bs : List Nat, (∀ b ∈ bs, b < 256) →
      hex bs.length (encodeHex bs) = .ok bs) ∧
    (∀ (N : Nat) (s out : List Nat), hex N s = .ok out →
      hex N (encodeHex out) = .ok out) := by
  refine ⟨hex_encodeHex, ?_⟩
  intro N s out hout
  obtain ⟨hslen, holen, hval, hform⟩ := hex_ok_inv hout
  have hb : ∀ b ∈ out, b < 256 := by
    intro b hbm
    rw [hform] at hbm
    rw [List.mem_map] at hbm
    obtain ⟨j, hj, rfl⟩ := hbm
    have := pairVal_le_255 s j
    omega
  have hmain := hex_encodeHex out hb
  rwa [holen] at hmain

/-- Witness for C8 at the byte sequence [171] and at the decode of "0f"
(bytes [48, 102], N = 1, result [15]). -/
theorem C8_roundtrip_witness :
    hex ([171] : List Nat).length (encodeHex [171]) = .ok [171] ∧
    hex 1 (encodeHex [15]) = .ok [15] :=
  ⟨C8_roundtrip.1 [171] (by decide), C8_roundtrip.2 1 [48, 102] [15] rfl⟩

/-- C9 counterexample: the failure message never identifies the offending
character or position: decoding "11X1" and "1Q11" (different invalid bytes at
different positions) produces the identical error with the fixed message
"Invalid character", and the digit decoder returns the very same error value
for the bytes X (88) and Q (81). -/
theorem C9_counterexample :
    hex 2 [49, 49, 88, 49] = .error (.invalidCharacter "Invalid character") ∧
    hex 2 [49, 81, 49, 49] = .error (.invalidCharacter "Invalid character") ∧
    ascii_char_to_num 88 = ascii_char_to_num 81 :=
  ⟨rfl, rfl, rfl⟩

/-- C9 amended: whenever decoding fails with an invalid-character error, the
message is the fixed string "Invalid character", identical for every invalid
input; it does not identify the offending character or its position. -/
theorem C9_amended :
    (∀ (N : Nat) (s : List Nat) (msg : String),
      hex N s = .error (.invalidCharacter msg) → msg = "Invalid character") ∧
    (∀ c, validDigit c = false →
      ascii_char_to_num c = .error (.invalidCharacter "Invalid character")) := by
  constructor
  · intro N s msg h
    unfold hex at h
    split_ifs at h with h1 h2
    · exact HexError.invalidCharacter.inj (hexLoop_error_shape s N 0 _ h)
    · injection h with h
      exact absurd h (by simp)
    · injection h with h
      exact absurd h (by simp)
  · intro c hc
    exact ascii_error_of_not_valid hc

/-- Witness for C9 amended at "11X1" (bytes [49, 49, 88, 49], N = 2) and at
the byte 88. -/
theorem C9_amended_witness :
    "Invalid character" = "Invalid character" ∧
    ascii_char_to_num 88 = .error (.invalidCharacter "Invalid character") :=
  ⟨C9_amended.1 2 [49, 49, 88, 49] "Invalid character" rfl,
   C9_amended.2 88 rfl⟩

/-- C10: the decoder works on UTF-8 byte length (the embedding takes the
byte sequence of the string, as `s.as_bytes()` does): no byte at or above
0x80 = 128 is ever accepted as a digit, and any byte sequence of even length
2 * N containing such a byte passes both length checks and fails with the
invalid-character error; in particular the two UTF-8 bytes [195, 169] of the
single character "é" pass the length checks for N = 1 and fail on the first
non-hex byte. -/
theorem C10_byte_length :
    (∀ b, 128 ≤ b → ascii_char_to_num b = .error (.invalidCharacter "Invalid character")) ∧
    (∀ (N : Nat) (s : List Nat), s.length = 2 * N → (∃ b ∈ s, 128 ≤ b) →
      hex N s = .error (.invalidCharacter "Invalid character")) ∧
    hex 1 [195, 169] = .error (.invalidCharacter "Invalid character") := by
  have hbad : ∀ b, 128 ≤ b → validDigit b = false := by
    intro b hb
    cases hvb : validDigit b
    · rfl
    · exfalso
      have := (validDigit_iff b).mp hvb
      omega
  refine ⟨?_, ?_, rfl⟩
  · intro b hb
    exact ascii_error_of_not_valid (hbad b hb)
  · rintro N s hlen ⟨b, hbs, hb⟩
    exact hex_invalid_of_bad_byte (by omega) hbs (hbad b hb)

/-- Witness for C10 at the byte 200 and the UTF-8 bytes [195, 169] of "é"
with N = 1. -/
theorem C10_byte_length_witness :
    ascii_char_to_num 200 = .error (.invalidCharacter "Invalid character") ∧
    hex 1 [195, 169] = .error (.invalidCharacter "Invalid character") :=
  ⟨C10_byte_length.1 200 (by decide),
   C10_byte_length.2.1 1 [195, 169] rfl ⟨195, by decide, by decide⟩⟩

end Myhex
